import Mathlib

set_option maxHeartbeats 1000000

namespace FormAnalyticsSpec

/-- Export reason values of the TypeScript union type
`"submit" | "tabClose" | "idle"`. -/
inductive ExportReason where
  | submit
  | tabClose
  | idle
deriving Repr, DecidableEq

/-- Per-field analytics record (`FieldAnalytics` in types.ts): the field
identifier and the list of distinct validation-error messages recorded so far. -/
structure FieldAnalytics where
  id : String
  validationErrors : List String
deriving Repr, DecidableEq

/-- Per-tab analytics record (`TabAnalytics` as created and updated by
analyticsUtils.ts; the reducer also maintains a `lastVisitedAt` stamp). -/
structure TabAnalytics where
  visits : Nat
  totalTimeSpent : Int
  lastVisitTime : Option Int
  lastVisitedAt : Option Int
deriving Repr, DecidableEq

/-- A JavaScript `Record<string, V>` object, embedded as an insertion-ordered
association list. A well-formed object never has two entries with the same key.
Property accesses compare keys by exact string equality, as JS does. -/
def lookupMap {α : Type} (m : List (String × α)) (k : String) : Option α :=
  match m with
  | [] => none
  | p :: rest => if p.1 = k then some p.2 else lookupMap rest k

/-- Key-membership test, the embedding of `obj[k] !== undefined`. -/
def hasKey {α : Type} (m : List (String × α)) (k : String) : Prop :=
  k ∈ m.map Prod.fst

instance {α : Type} (m : List (String × α)) (k : String) : Decidable (hasKey m k) :=
  inferInstanceAs (Decidable (k ∈ m.map Prod.fst))

/-- The embedding of the JS assignment `obj[k] = v` (equivalently the spread
`\x7b...obj, [k]: v\x7d`): replace the value in place when the key exists,
otherwise append the new entry at the end. -/
def updMap {α : Type} (m : List (String × α)) (k : String) (v : α) : List (String × α) :=
  if hasKey m k then m.map (fun p => if p.1 = k then (k, v) else p)
  else m ++ [(k, v)]

/-- The Session Record (`FormAnalytics` in types.ts). Timestamps are
milliseconds since epoch, modelled as integers. -/
structure FormAnalytics where
  sessionId : String
  formStartTime : Int
  formEndTime : Option Int
  formCompletionTime : Option Int
  fields : List (String × FieldAnalytics)
  tabs : List (String × TabAnalytics)
  formSubmitted : Bool
  formAbandoned : Bool
  validationErrorCount : Nat
  exportReason : Option ExportReason
deriving Repr, DecidableEq

/-- analyticsUtils.ts `createInitialFieldAnalytics`. -/
def createInitialFieldAnalytics (fieldId : String) : FieldAnalytics :=
  { id := fieldId, validationErrors := [] }

/-- analyticsUtils.ts `createInitialTabAnalytics`. -/
def createInitialTabAnalytics : TabAnalytics :=
  { visits := 0, totalTimeSpent := 0, lastVisitTime := none, lastVisitedAt := none }

/-- analyticsUtils.ts `createInitialAnalyticsState`. The source calls
`uuidv4()` and `Date.now()` internally; the generated session id and the
creation time are passed as explicit parameters. The `forEach` object
assignments become left folds with `updMap`. -/
def createInitialAnalyticsState (formFields : List String) (tabIds : List String)
    (sessionId : String) (now : Int) : FormAnalytics :=
  { sessionId := sessionId
    formStartTime := now
    formEndTime := none
    formCompletionTime := none
    fields := formFields.foldl (fun m f => updMap m f (createInitialFieldAnalytics f)) []
    tabs := tabIds.foldl (fun m t => updMap m t createInitialTabAnalytics) []
    formSubmitted := false
    formAbandoned := false
    validationErrorCount := 0
    exportReason := none }

/-- The closed set of reducer actions (`AnalyticsAction` in analyticsUtils.ts). -/
inductive AnalyticsAction where
  | validationError (field : String) (error : String)
  | tabChange (tab : String)
  | formSubmit
  | formAbandon
  | resetAnalytics
  | finalizeTabTimes
  | setExportReason (reason : Option ExportReason)
deriving Repr, DecidableEq

/-- Fold a tab's in-flight active interval into `totalTimeSpent` and clear
`lastVisitTime`, exactly as the guarded update
`if (lastVisitTime !== null) \x7b totalTimeSpent += now - lastVisitTime; lastVisitTime = null \x7d`
does at each of its four occurrences in the reducer. -/
def finalizeTab (now : Int) (t : TabAnalytics) : TabAnalytics :=
  match t.lastVisitTime with
  | some lv => { t with totalTimeSpent := t.totalTimeSpent + (now - lv), lastVisitTime := none }
  | none => t

/-- Apply `finalizeTab` to every tab of the map: the `forEach` loop of the
FINALIZE_TAB_TIMES, FORM_SUBMIT and FORM_ABANDON cases. -/
def finalizeAllTabs (now : Int) (tabs : List (String × TabAnalytics)) :
    List (String × TabAnalytics) :=
  tabs.map (fun p => (p.1, finalizeTab now p.2))

/-- The update applied to the target tab of a TAB_CHANGE: increment `visits`
and stamp `lastVisitTime` and `lastVisitedAt` with `now`; `totalTimeSpent`
is not touched. -/
def bumpTab (now : Int) (t : TabAnalytics) : TabAnalytics :=
  { t with visits := t.visits + 1, lastVisitTime := some now, lastVisitedAt := some now }

/-- The TAB_CHANGE case body: (1) fold the elapsed time of every tab other
than the target that has a non-null `lastVisitTime`; (2) create the target
tab if absent; (3) bump the target's `visits` and stamp `lastVisitTime` and
`lastVisitedAt` with `now`. Note phase (1) skips the target tab itself
(`tab !== action.tab` in the source). -/
def tabChangeStep (tabs : List (String × TabAnalytics)) (target : String) (now : Int) :
    List (String × TabAnalytics) :=
  let t1 := tabs.map (fun p => if p.1 = target then p else (p.1, finalizeTab now p.2))
  let t2 := if hasKey t1 target then t1 else t1 ++ [(target, createInitialTabAnalytics)]
  t2.map (fun p => if p.1 = target then (p.1, bumpTab now p.2) else p)

/-- analyticsUtils.ts `analyticsReducer`. The source reads `Date.now()` once
at entry (`now`); the RESET_ANALYTICS case generates a fresh uuid, passed here
as `freshId`. The VALIDATION_ERROR case dereferences
`state.fields[action.field]` without a guard, so when the field is not a key
of `fields` the JS code throws a TypeError; that failure is modelled as
`none`. Every other path returns `some` of the next state. -/
def analyticsReducer (state : FormAnalytics) (action : AnalyticsAction)
    (now : Int) (freshId : String) : Option FormAnalytics :=
  match action with
  | AnalyticsAction.validationError f m =>
    match lookupMap state.fields f with
    | none => none
    | some fa =>
      let isExistingError := m ∈ fa.validationErrors
      some { state with
        fields := updMap state.fields f
          { fa with validationErrors :=
              if isExistingError then fa.validationErrors
              else fa.validationErrors ++ [m] }
        validationErrorCount :=
          if isExistingError then state.validationErrorCount
          else state.validationErrorCount + 1 }
  | AnalyticsAction.tabChange t =>
    some { state with tabs := tabChangeStep state.tabs t now }
  | AnalyticsAction.finalizeTabTimes =>
    some { state with tabs := finalizeAllTabs now state.tabs }
  | AnalyticsAction.formSubmit =>
    some { state with
      validationErrorCount := (state.fields.map (fun p => p.2.validationErrors.length)).sum
      formEndTime := some now
      formCompletionTime := some (now - state.formStartTime)
      formSubmitted := true
      formAbandoned := false
      exportReason := some ExportReason.submit
      tabs := finalizeAllTabs now state.tabs }
  | AnalyticsAction.formAbandon =>
    some { state with
      formEndTime := some now
      formAbandoned := true
      tabs := finalizeAllTabs now state.tabs }
  | AnalyticsAction.setExportReason r =>
    some { state with exportReason := r }
  | AnalyticsAction.resetAnalytics =>
    some (createInitialAnalyticsState (state.fields.map Prod.fst)
      (state.tabs.map Prod.fst) freshId now)

/-- Run a timed sequence of actions through the reducer, failing (`none`) as
soon as one dispatch fails. Each list element pairs an action with the
`Date.now()` value observed when it is dispatched. -/
def runEvents (s : FormAnalytics) (evs : List (AnalyticsAction × Int)) (freshId : String) :
    Option FormAnalytics :=
  evs.foldl (fun acc e => acc.bind (fun st => analyticsReducer st e.1 e.2 freshId)) (some s)

/-- Number of Tab Records whose `lastVisitTime` (the activeSince stamp) is
non-null. -/
def countActiveTabs (tabs : List (String × TabAnalytics)) : Nat :=
  (tabs.filter (fun p => p.2.lastVisitTime.isSome)).length

/-- Well-formedness of a JS object embedding: no two entries share a key.
Every value a real JavaScript `Record<string, V>` can take satisfies this. -/
def keysNodup {α : Type} (m : List (String × α)) : Prop :=
  (m.map Prod.fst).Nodup

instance {α : Type} (m : List (String × α)) : Decidable (keysNodup m) := by
  unfold keysNodup
  infer_instance

/-- Total length of the recorded validation-error lists: the quantity
`Object.values(state.fields).reduce((count, field) => count + field.validationErrors.length, 0)`
that the FORM_SUBMIT case recomputes. -/
def errSum (fields : List (String × FieldAnalytics)) : Nat :=
  (fields.map (fun p => p.2.validationErrors.length)).sum

/-- The error-count invariant: the fields object is well formed, each field
stores pairwise-distinct messages (so the list length is exactly the number
of distinct messages recorded), and `validationErrorCount` equals the sum
over fields of that number. -/
def errorCountInvariant (s : FormAnalytics) : Prop :=
  keysNodup s.fields
  ∧ (∀ p ∈ s.fields, p.2.validationErrors.Nodup)
  ∧ s.validationErrorCount = errSum s.fields

instance (s : FormAnalytics) : Decidable (errorCountInvariant s) := by
  unfold errorCountInvariant
  infer_instance

/-- Mutual exclusion of the two terminal outcome flags. -/
def flagsExclusive (s : FormAnalytics) : Prop :=
  ¬ (s.formSubmitted = true ∧ s.formAbandoned = true)

instance (s : FormAnalytics) : Decidable (flagsExclusive s) := by
  unfold flagsExclusive
  infer_instance

/-- Discharge a reducer dispatch inside the controller. The controller only
dispatches actions whose reducer case cannot fail (`FORM_SUBMIT`,
`FORM_ABANDON`, `SET_EXPORT_REASON`, `FINALIZE_TAB_TIMES`), so the `getD`
default is never taken on those actions. -/
def dispatchD (s : FormAnalytics) (a : AnalyticsAction) (now : Int) (freshId : String) :
    FormAnalytics :=
  (analyticsReducer s a now freshId).getD s

/-- The mutable state of the provider component (AnalyticsContext.tsx): the
current Session Record held by `useReducer`, the `formAlreadySubmitted` ref,
and a counter of records that reached the network (axios posts and
`sendBeacon` calls), used to state delivery-count properties. -/
structure ControllerState where
  analytics : FormAnalytics
  formAlreadySubmitted : Bool
  exportsDelivered : Nat
deriving Repr, DecidableEq

/-- The asynchronous signals that drive the provider: expiry of the idle
timer, a `trackFormSubmit` call, the page `unload` event, and a run of the
body of the `useEffect` keyed on `analytics`, which resets the submission
ref. -/
inductive ControllerSignal where
  | idleExpire
  | submitCall
  | unloadSignal
  | analyticsEffect
deriving Repr, DecidableEq

/-- The success path of `exportAnalytics(reason)` in AnalyticsContext.tsx:
the axios post delivers one record unconditionally (there is no guard check
before the attempt), then the matching terminal action, `SET_EXPORT_REASON`
and `FINALIZE_TAB_TIMES` are dispatched. The `formAlreadySubmitted` ref is
set only in the `reason === "submit"` branch, after the post has already
succeeded. -/
def exportAnalyticsModel (reason : ExportReason) (cs : ControllerState) (now : Int)
    (freshId : String) : ControllerState :=
  let delivered := cs.exportsDelivered + 1
  match reason with
  | ExportReason.submit =>
    let a1 := dispatchD cs.analytics AnalyticsAction.formSubmit now freshId
    let a2 := dispatchD a1 (AnalyticsAction.setExportReason (some reason)) now freshId
    let a3 := dispatchD a2 AnalyticsAction.finalizeTabTimes now freshId
    { analytics := a3, formAlreadySubmitted := true, exportsDelivered := delivered }
  | _ =>
    let a1 := dispatchD cs.analytics AnalyticsAction.formAbandon now freshId
    let a2 := dispatchD a1 (AnalyticsAction.setExportReason (some reason)) now freshId
    let a3 := dispatchD a2 AnalyticsAction.finalizeTabTimes now freshId
    { analytics := a3, formAlreadySubmitted := cs.formAlreadySubmitted,
      exportsDelivered := delivered }

/-- One signal handled by the provider. `idleExpire` runs
`exportAnalytics("idle")`; `submitCall` runs `exportAnalytics("submit")` via
`trackFormSubmit`; `unloadSignal` runs `handleUnload`, whose `sendBeacon`
delivers one more record unless `formAlreadySubmitted` is set, and which
dispatches no action; `analyticsEffect` runs the effect body that executes
`formAlreadySubmitted.current = false` whenever `analytics.sessionId` is
truthy (a non-empty string). -/
def controllerStep (cs : ControllerState) (sig : ControllerSignal) (now : Int)
    (freshId : String) : ControllerState :=
  match sig with
  | ControllerSignal.idleExpire => exportAnalyticsModel ExportReason.idle cs now freshId
  | ControllerSignal.submitCall => exportAnalyticsModel ExportReason.submit cs now freshId
  | ControllerSignal.unloadSignal =>
    if cs.formAlreadySubmitted then cs
    else { cs with exportsDelivered := cs.exportsDelivered + 1 }
  | ControllerSignal.analyticsEffect =>
    if cs.analytics.sessionId = "" then cs
    else { cs with formAlreadySubmitted := false }

/-- Run a timed sequence of controller signals. -/
def runSignals (cs : ControllerState) (sigs : List (ControllerSignal × Int))
    (freshId : String) : ControllerState :=
  sigs.foldl (fun acc sg => controllerStep acc sg.1 sg.2 freshId) cs

/-- A freshly mounted provider: initial Session Record, submission ref
`false`, nothing delivered yet. -/
def initialController (formFields : List String) (tabIds : List String)
    (sessionId : String) (now : Int) : ControllerState :=
  { analytics := createInitialAnalyticsState formFields tabIds sessionId now
    formAlreadySubmitted := false
    exportsDelivered := 0 }


/-- A concrete Session Record with one known field (already recording one
message) and one active tab, used to instantiate the universally quantified
theorems below. -/
def sampleState : FormAnalytics :=
  { sessionId := "sess"
    formStartTime := 0
    formEndTime := none
    formCompletionTime := none
    fields := [("email", { id := "email", validationErrors := ["Required"] })]
    tabs := [("personal", { visits := 1, totalTimeSpent := 0, lastVisitTime := some 0,
                            lastVisitedAt := some 0 })]
    formSubmitted := false
    formAbandoned := false
    validationErrorCount := 1
    exportReason := none }

/-- The sample Session Record after a terminal Submit flag, used to
instantiate theorems about terminal states. -/
def sampleSubmittedState : FormAnalytics :=
  { sampleState with formSubmitted := true }

/-- The sample Session Record after FORM_ABANDON at t=10, used to instantiate
the mutual-exclusion preservation theorem. -/
def sampleAbandonedState : FormAnalytics :=
  { sampleState with
    formEndTime := some 10
    formAbandoned := true
    tabs := finalizeAllTabs 10 sampleState.tabs }

section MapLemmas

variable {A : Type}

theorem hasKey_of_lookupMap_some {m : List (String × A)} {k : String} {v : A}
    (h : lookupMap m k = some v) : hasKey m k := by
  induction m with
  | nil => simp [lookupMap] at h
  | cons p rest ih =>
    by_cases hp : p.1 = k
    · simp [hasKey, hp.symm]
    · simp only [lookupMap, if_neg hp] at h
      have := ih h
      simp [hasKey] at this ⊢
      right
      exact this

theorem mem_of_lookupMap_some {m : List (String × A)} {k : String} {v : A}
    (h : lookupMap m k = some v) : (k, v) ∈ m := by
  induction m with
  | nil => simp [lookupMap] at h
  | cons p rest ih =>
    by_cases hp : p.1 = k
    · simp only [lookupMap, if_pos hp] at h
      injection h with hv
      rw [← hv, ← hp]
      exact List.mem_cons_self p rest
    · simp only [lookupMap, if_neg hp] at h
      right
      exact ih h

theorem lookupMap_isSome_of_hasKey {m : List (String × A)} {k : String}
    (h : hasKey m k) : (lookupMap m k).isSome = true := by
  induction m with
  | nil => simp [hasKey] at h
  | cons p rest ih =>
    by_cases hp : p.1 = k
    · simp [lookupMap, hp]
    · simp only [hasKey, List.map_cons, List.mem_cons] at h
      rcases h with h1 | h2
      · exact absurd h1.symm hp
      · simp only [lookupMap, if_neg hp]
        exact ih h2

theorem lookupMap_updMap_self (m : List (String × A)) (k : String) (v : A) :
    lookupMap (updMap m k v) k = some v := by
  unfold updMap
  by_cases hk : hasKey m k
  · rw [if_pos hk]
    induction m with
    | nil => simp [hasKey] at hk
    | cons p rest ih =>
      by_cases hp : p.1 = k
      · simp [lookupMap, hp]
      · have hr : hasKey rest k := by
          simp only [hasKey, List.map_cons, List.mem_cons] at hk
          rcases hk with h1 | h2
          · exact absurd h1.symm hp
          · exact h2
        simp only [List.map_cons, if_neg hp, lookupMap]
        exact ih hr
  · rw [if_neg hk]
    induction m with
    | nil => simp [lookupMap]
    | cons p rest ih =>
      have hp : ¬ p.1 = k := by
        intro hc
        exact hk (by simp [hasKey, hc.symm])
      have hr : ¬ hasKey rest k := by
        intro hc
        apply hk
        simp only [hasKey, List.map_cons, List.mem_cons]
        right
        exact hc
      simp only [List.cons_append, lookupMap, if_neg hp]
      exact ih hr

theorem keys_updMap_of_hasKey {m : List (String × A)} {k : String} (v : A)
    (h : hasKey m k) : (updMap m k v).map Prod.fst = m.map Prod.fst := by
  unfold updMap
  rw [if_pos h, List.map_map]
  apply List.map_congr_left
  intro p _
  by_cases hp : p.1 = k
  · simp [hp]
  · simp [if_neg hp]

theorem keys_updMap_of_not_hasKey {m : List (String × A)} {k : String} (v : A)
    (h : ¬ hasKey m k) : (updMap m k v).map Prod.fst = m.map Prod.fst ++ [k] := by
  unfold updMap
  rw [if_neg h]
  simp

theorem keysNodup_updMap {m : List (String × A)} {k : String} (v : A)
    (h : keysNodup m) : keysNodup (updMap m k v) := by
  by_cases hk : hasKey m k
  · unfold keysNodup
    rw [keys_updMap_of_hasKey v hk]
    exact h
  · unfold keysNodup
    rw [keys_updMap_of_not_hasKey v hk]
    rw [List.nodup_append]
    refine ⟨h, List.nodup_singleton k, ?_⟩
    intro x hx hxk
    apply hk
    simp only [List.mem_singleton] at hxk
    subst hxk
    exact hx

theorem mem_updMap {m : List (String × A)} {k : String} {v : A} {p : String × A}
    (h : p ∈ updMap m k v) : p = (k, v) ∨ p ∈ m := by
  unfold updMap at h
  by_cases hk : hasKey m k
  · rw [if_pos hk] at h
    rcases List.mem_map.mp h with ⟨q, hq, hqe⟩
    by_cases hqk : q.1 = k
    · rw [if_pos hqk] at hqe
      left
      rw [← hqe]
    · rw [if_neg hqk] at hqe
      right
      rw [← hqe]
      exact hq
  · rw [if_neg hk] at h
    rcases List.mem_append.mp h with h1 | h2
    · right; exact h1
    · left
      simp only [List.mem_singleton] at h2
      exact h2

theorem updMap_of_lookupMap_self {m : List (String × A)} {k : String} {v : A}
    (hn : keysNodup m) (h : lookupMap m k = some v) : updMap m k v = m := by
  unfold updMap
  rw [if_pos (hasKey_of_lookupMap_some h)]
  induction m with
  | nil => rfl
  | cons p rest ih =>
    by_cases hp : p.1 = k
    · simp only [lookupMap, if_pos hp] at h
      have hrest : ¬ hasKey rest k := by
        intro hc
        unfold keysNodup at hn
        simp only [List.map_cons, List.nodup_cons] at hn
        rw [hp] at hn
        exact hn.1 hc
      have hmap : rest.map (fun p => if p.1 = k then (k, v) else p) = rest := by
        conv_rhs => rw [← List.map_id rest]
        apply List.map_congr_left
        intro q hq
        have hqk : ¬ q.1 = k := by
          intro hc
          exact hrest (by simp only [hasKey, List.mem_map]; exact ⟨q, hq, hc⟩)
        rw [if_neg hqk]
        rfl
      injection h with hv
      simp only [List.map_cons, if_pos hp, hmap]
      rw [← hv, ← hp]
    · simp only [lookupMap, if_neg hp] at h
      have hn2 : keysNodup rest := by
        unfold keysNodup at hn ⊢
        simp only [List.map_cons, List.nodup_cons] at hn
        exact hn.2
      simp only [List.map_cons, if_neg hp]
      rw [ih hn2 h]

end MapLemmas

theorem exists_decomp_of_lookup {m : List (String × A)} {k : String} {v : A}
    (hn : keysNodup m) (h : lookupMap m k = some v) :
    ∃ l1 l2, m = l1 ++ (k, v) :: l2 ∧ ∀ w, updMap m k w = l1 ++ (k, w) :: l2 := by
  induction m with
  | nil => simp [lookupMap] at h
  | cons p rest ih =>
    by_cases hp : p.1 = k
    · simp only [lookupMap, if_pos hp] at h
      injection h with hv
      refine ⟨[], rest, ?_, ?_⟩
      · rw [List.nil_append, ← hv, ← hp]
      · intro w
        have hk : hasKey (p :: rest) k := by simp [hasKey, hp.symm]
        have hrest : ¬ hasKey rest k := by
          intro hc
          unfold keysNodup at hn
          simp only [List.map_cons, List.nodup_cons] at hn
          rw [hp] at hn
          exact hn.1 hc
        unfold updMap
        rw [if_pos hk]
        have hmap : rest.map (fun q => if q.1 = k then (k, w) else q) = rest := by
          conv_rhs => rw [← List.map_id rest]
          apply List.map_congr_left
          intro q hq
          have hqk : ¬ q.1 = k := by
            intro hc
            exact hrest (by simp only [hasKey, List.mem_map]; exact ⟨q, hq, hc⟩)
          rw [if_neg hqk]
          rfl
        simp only [List.map_cons, if_pos hp, hmap, List.nil_append]
    · simp only [lookupMap, if_neg hp] at h
      have hn2 : keysNodup rest := by
        unfold keysNodup at hn ⊢
        simp only [List.map_cons, List.nodup_cons] at hn
        exact hn.2
      rcases ih hn2 h with ⟨l1, l2, hm, hu⟩
      refine ⟨p :: l1, l2, by rw [hm]; rfl, ?_⟩
      intro w
      have hkrest : hasKey rest k := hasKey_of_lookupMap_some h
      have hk : hasKey (p :: rest) k := by
        simp only [hasKey, List.map_cons, List.mem_cons]
        right
        exact hkrest
      unfold updMap
      rw [if_pos hk]
      have hrw : rest.map (fun q => if q.1 = k then (k, w) else q) = l1 ++ (k, w) :: l2 := by
        have := hu w
        unfold updMap at this
        rw [if_pos hkrest] at this
        exact this
      simp only [List.map_cons, if_neg hp, hrw]
      rfl

theorem mem_foldl_updMap {g : String → A} :
    ∀ (xs : List String) (acc : List (String × A)) (p : String × A),
      p ∈ xs.foldl (fun m x => updMap m x (g x)) acc → p ∈ acc ∨ ∃ x, p = (x, g x) := by
  intro xs
  induction xs with
  | nil =>
    intro acc p h
    exact Or.inl h
  | cons x rest ih =>
    intro acc p h
    simp only [List.foldl_cons] at h
    rcases ih (updMap acc x (g x)) p h with h1 | h2
    · rcases mem_updMap h1 with hv | hm
      · right
        exact ⟨x, hv⟩
      · left
        exact hm
    · right
      exact h2

theorem keysNodup_foldl_updMap {g : String → A} :
    ∀ (xs : List String) (acc : List (String × A)), keysNodup acc →
      keysNodup (xs.foldl (fun m x => updMap m x (g x)) acc) := by
  intro xs
  induction xs with
  | nil =>
    intro acc h
    exact h
  | cons x rest ih =>
    intro acc h
    simp only [List.foldl_cons]
    exact ih (updMap acc x (g x)) (keysNodup_updMap (g x) h)

theorem foldl_updMap_fresh {g : String → A} :
    ∀ (xs : List String) (acc : List (String × A)), xs.Nodup →
      (∀ x ∈ xs, ¬ hasKey acc x) →
      xs.foldl (fun m x => updMap m x (g x)) acc = acc ++ xs.map (fun x => (x, g x)) := by
  intro xs
  induction xs with
  | nil =>
    intro acc _ _
    simp
  | cons x rest ih =>
    intro acc hnd hfresh
    simp only [List.foldl_cons, List.map_cons]
    have hx : ¬ hasKey acc x := hfresh x (by simp)
    have hstep : updMap acc x (g x) = acc ++ [(x, g x)] := by
      unfold updMap
      rw [if_neg hx]
    rw [hstep, ih (acc ++ [(x, g x)]) (List.Nodup.of_cons hnd) ?_]
    · simp
    · intro y hy hc
      unfold hasKey at hc
      simp only [List.map_append, List.mem_append] at hc
      rcases hc with hc1 | hc2
      · exact hfresh y (by simp [hy]) hc1
      · simp only [List.map_cons, List.map_nil, List.mem_singleton] at hc2
        subst hc2
        exact (List.nodup_cons.mp hnd).1 hy

theorem errSum_append (l1 l2 : List (String × FieldAnalytics)) :
    errSum (l1 ++ l2) = errSum l1 + errSum l2 := by
  simp [errSum]

theorem errSum_cons (p : String × FieldAnalytics) (l : List (String × FieldAnalytics)) :
    errSum (p :: l) = p.2.validationErrors.length + errSum l := by
  simp [errSum]

theorem finalizeTab_lastVisitTime (now : Int) (t : TabAnalytics) :
    (finalizeTab now t).lastVisitTime = none := by
  cases h : t.lastVisitTime <;> simp [finalizeTab, h]

theorem countActiveTabs_eq_zero {l : List (String × TabAnalytics)}
    (h : ∀ p ∈ l, p.2.lastVisitTime = none) : countActiveTabs l = 0 := by
  unfold countActiveTabs
  have : l.filter (fun p => p.2.lastVisitTime.isSome) = [] := by
    rw [List.filter_eq_nil_iff]
    intro p hp
    simp [h p hp]
  rw [this]
  rfl

theorem countActiveTabs_finalizeAllTabs (now : Int) (l : List (String × TabAnalytics)) :
    countActiveTabs (finalizeAllTabs now l) = 0 := by
  apply countActiveTabs_eq_zero
  intro p hp
  rcases List.mem_map.mp hp with ⟨q, _, hq⟩
  rw [← hq]
  exact finalizeTab_lastVisitTime now q.2

theorem keys_map_of_fst_eq {B : Type} {F : String × B → String × B}
    (hF : ∀ p, (F p).1 = p.1) (l : List (String × B)) :
    (l.map F).map Prod.fst = l.map Prod.fst := by
  rw [List.map_map]
  apply List.map_congr_left
  intro p _
  exact hF p

theorem lookupMap_map_keep {B : Type} {F : String × B → String × B} {k : String}
    (hF : ∀ p, (F p).1 = p.1) (hkeep : ∀ p : String × B, p.1 = k → F p = p)
    (l : List (String × B)) :
    lookupMap (l.map F) k = lookupMap l k := by
  induction l with
  | nil => rfl
  | cons p rest ih =>
    simp only [List.map_cons, lookupMap, hF p]
    by_cases hp : p.1 = k
    · rw [if_pos hp, if_pos hp, hkeep p hp]
    · rw [if_neg hp, if_neg hp]
      exact ih

theorem lookupMap_map_upd {B : Type} {F : String × B → String × B} {k : String}
    (g : B → B) (hF : ∀ p, (F p).1 = p.1)
    (hupd : ∀ p : String × B, p.1 = k → (F p).2 = g p.2) (l : List (String × B)) :
    lookupMap (l.map F) k = (lookupMap l k).map g := by
  induction l with
  | nil => rfl
  | cons p rest ih =>
    simp only [List.map_cons, lookupMap, hF p]
    by_cases hp : p.1 = k
    · rw [if_pos hp, if_pos hp, hupd p hp]
      rfl
    · rw [if_neg hp, if_neg hp]
      exact ih

theorem keys_tabChangeStep (tabs : List (String × TabAnalytics)) (target : String) (now : Int) :
    (tabChangeStep tabs target now).map Prod.fst
      = if hasKey tabs target then tabs.map Prod.fst else tabs.map Prod.fst ++ [target] := by
  unfold tabChangeStep
  simp only
  rw [keys_map_of_fst_eq (fun p => by by_cases hp : p.1 = target <;> simp [hp])]
  have hkeys1 : (tabs.map (fun p => if p.1 = target then p else (p.1, finalizeTab now p.2))).map
      Prod.fst = tabs.map Prod.fst :=
    keys_map_of_fst_eq (fun p => by by_cases hp : p.1 = target <;> simp [hp]) tabs
  by_cases hk : hasKey tabs target
  · have hk1 : hasKey (tabs.map (fun p => if p.1 = target then p else (p.1, finalizeTab now p.2)))
        target := by
      unfold hasKey at hk ⊢
      rw [hkeys1]
      exact hk
    rw [if_pos hk1, if_pos hk, hkeys1]
  · have hk1 : ¬ hasKey (tabs.map (fun p => if p.1 = target then p else (p.1, finalizeTab now p.2)))
        target := by
      unfold hasKey at hk ⊢
      rw [hkeys1]
      exact hk
    rw [if_neg hk1, if_neg hk]
    simp only [List.map_append, hkeys1]
    rfl

theorem mem_tabChangeStep_cases {tabs : List (String × TabAnalytics)} {target : String}
    {now : Int} {p : String × TabAnalytics} (h : p ∈ tabChangeStep tabs target now) :
    (p.1 = target ∧ p.2.lastVisitTime = some now)
    ∨ (¬ p.1 = target ∧ p.2.lastVisitTime = none) := by
  unfold tabChangeStep at h
  simp only at h
  rcases List.mem_map.mp h with ⟨q, hq, hqe⟩
  by_cases hqt : q.1 = target
  · rw [if_pos hqt] at hqe
    left
    rw [← hqe]
    exact ⟨hqt, rfl⟩
  · rw [if_neg hqt] at hqe
    right
    subst hqe
    refine ⟨hqt, ?_⟩
    by_cases hk : hasKey (tabs.map (fun r => if r.1 = target then r else (r.1, finalizeTab now r.2))) target
    · rw [if_pos hk] at hq
      rcases List.mem_map.mp hq with ⟨r, _, hre⟩
      by_cases hrt : r.1 = target
      · rw [if_pos hrt] at hre
        rw [← hre] at hqt
        exact absurd hrt hqt
      · rw [if_neg hrt] at hre
        rw [← hre]
        exact finalizeTab_lastVisitTime now r.2
    · rw [if_neg hk] at hq
      rcases List.mem_append.mp hq with h1 | h2
      · rcases List.mem_map.mp h1 with ⟨r, _, hre⟩
        by_cases hrt : r.1 = target
        · rw [if_pos hrt] at hre
          rw [← hre] at hqt
          exact absurd hrt hqt
        · rw [if_neg hrt] at hre
          rw [← hre]
          exact finalizeTab_lastVisitTime now r.2
      · simp only [List.mem_singleton] at h2
        rw [h2] at hqt
        exact absurd rfl hqt

theorem key_filter_length_of_nodup {l : List (String × TabAnalytics)} {k : String}
    (hn : keysNodup l) (hk : hasKey l k) :
    (l.filter (fun p => decide (p.1 = k))).length = 1 := by
  induction l with
  | nil => simp [hasKey] at hk
  | cons p rest ih =>
    by_cases hp : p.1 = k
    · have hrest : ∀ q ∈ rest, ¬ q.1 = k := by
        intro q hq hc
        unfold keysNodup at hn
        simp only [List.map_cons, List.nodup_cons] at hn
        apply hn.1
        rw [hp, ← hc]
        exact List.mem_map.mpr ⟨q, hq, rfl⟩
      have hfil : rest.filter (fun q => decide (q.1 = k)) = [] := by
        rw [List.filter_eq_nil_iff]
        intro q hq
        simp [hrest q hq]
      simp [List.filter_cons, hp, hfil]
    · have hk2 : hasKey rest k := by
        unfold hasKey at hk ⊢
        simp only [List.map_cons, List.mem_cons] at hk
        rcases hk with h1 | h2
        · exact absurd h1.symm hp
        · exact h2
      have hn2 : keysNodup rest := by
        unfold keysNodup at hn ⊢
        simp only [List.map_cons, List.nodup_cons] at hn
        exact hn.2
      simp only [List.filter_cons, decide_eq_true_eq, hp, if_false]
      exact ih hn2 hk2

theorem countActiveTabs_tabChangeStep {tabs : List (String × TabAnalytics)} {target : String}
    {now : Int} (hn : keysNodup tabs) :
    countActiveTabs (tabChangeStep tabs target now) = 1 := by
  unfold countActiveTabs
  have hpt : ∀ p ∈ tabChangeStep tabs target now,
      (p.2.lastVisitTime.isSome) = decide (p.1 = target) := by
    intro p hp
    rcases mem_tabChangeStep_cases hp with ⟨h1, h2⟩ | ⟨h1, h2⟩
    · simp [h1, h2]
    · simp [h1, h2]
  rw [List.filter_congr hpt]
  apply key_filter_length_of_nodup
  · unfold keysNodup
    rw [keys_tabChangeStep]
    by_cases hk : hasKey tabs target
    · rw [if_pos hk]
      exact hn
    · rw [if_neg hk]
      rw [List.nodup_append]
      refine ⟨hn, List.nodup_singleton target, ?_⟩
      intro x hx hxk
      apply hk
      simp only [List.mem_singleton] at hxk
      subst hxk
      exact hx
  · unfold hasKey
    rw [keys_tabChangeStep]
    by_cases hk : hasKey tabs target
    · rw [if_pos hk]
      exact hk
    · rw [if_neg hk]
      simp

theorem lookupMap_tabChangeStep_self {tabs : List (String × TabAnalytics)} {target : String}
    {now : Int} {tb : TabAnalytics} (h : lookupMap tabs target = some tb) :
    lookupMap (tabChangeStep tabs target now) target = some (bumpTab now tb) := by
  unfold tabChangeStep
  simp only
  have h1 : lookupMap (tabs.map (fun p => if p.1 = target then p else (p.1, finalizeTab now p.2)))
      target = some tb := by
    rw [lookupMap_map_keep (fun p => by by_cases hp : p.1 = target <;> simp [hp])
      (fun p hp => by simp [hp])]
    exact h
  have hk : hasKey (tabs.map (fun p => if p.1 = target then p else (p.1, finalizeTab now p.2)))
      target := hasKey_of_lookupMap_some h1
  rw [if_pos hk, lookupMap_map_upd (bumpTab now)
      (fun p => by by_cases hp : p.1 = target <;> simp [hp]) (fun p hp => by simp [hp]), h1]
  rfl

/-- C8: Scenario A. From a session created at t=0 with sections personal,
payment and experience, the trace TabChange(personal)@0,
TabChange(payment)@5000, TabChange(experience)@12000, Submit@20000 yields
accumulated times 5000, 7000 and 8000 respectively, `formSubmitted = true`
and `formCompletionTime = 20000`. -/
theorem scenarioA_accumulated_times :
    ((runEvents (createInitialAnalyticsState [] ["personal", "payment", "experience"] "sid" 0)
        [(AnalyticsAction.tabChange "personal", 0), (AnalyticsAction.tabChange "payment", 5000),
         (AnalyticsAction.tabChange "experience", 12000), (AnalyticsAction.formSubmit, 20000)]
        "fresh").map
      (fun s => ((lookupMap s.tabs "personal").map TabAnalytics.totalTimeSpent,
                 (lookupMap s.tabs "payment").map TabAnalytics.totalTimeSpent,
                 (lookupMap s.tabs "experience").map TabAnalytics.totalTimeSpent,
                 s.formSubmitted, s.formCompletionTime)))
      = some (some 5000, some 7000, some 8000, true, some 20000) := by decide

/-- C2 counterexample: dispatching `ValidationError` for a field that is not
a key of `fields` does not return the input state unchanged — the reducer
dereferences `state.fields[action.field].validationErrors` and throws
(modelled as `none`). Here the session was created with an empty field list
(the documented degradation when schema introspection fails). -/
theorem validationError_unknown_field_throws :
    analyticsReducer (createInitialAnalyticsState [] ["default"] "sess" 0)
      (AnalyticsAction.validationError "email" "Invalid email address") 5 "fresh" = none := by
  decide

/-- C3 counterexample: re-selecting the already-active section does not fold
the elapsed time. With tab a active since t=0, TabChange(a) at t=100 leaves
`totalTimeSpent` at 0 (the 100ms in-flight interval is discarded) instead of
the 100 the claim requires, while `visits` still becomes 2. -/
theorem tabChange_reselect_discards_elapsed :
    ((runEvents (createInitialAnalyticsState [] ["a"] "sess" 0)
        [(AnalyticsAction.tabChange "a", 0), (AnalyticsAction.tabChange "a", 100)] "fresh").map
      (fun s => (lookupMap s.tabs "a").map (fun t => (t.visits, t.totalTimeSpent))))
      = some (some (2, 0))
    ∧ ¬ ((runEvents (createInitialAnalyticsState [] ["a"] "sess" 0)
        [(AnalyticsAction.tabChange "a", 0), (AnalyticsAction.tabChange "a", 100)] "fresh").map
      (fun s => (lookupMap s.tabs "a").map (fun t => (t.visits, t.totalTimeSpent))))
      = some (some (2, 100)) := by decide

/-- C4 counterexample: the state reached from a fresh session by Submit at
t=10 followed by Abandon at t=20 has `formSubmitted = true` and
`formAbandoned = true` simultaneously, because FORM_ABANDON leaves
`formSubmitted` unchanged. -/
theorem submit_then_abandon_sets_both_flags :
    ((runEvents (createInitialAnalyticsState [] [] "sess" 0)
        [(AnalyticsAction.formSubmit, 10), (AnalyticsAction.formAbandon, 20)] "fresh").map
      (fun s => (s.formSubmitted, s.formAbandoned))) = some (true, true) := by decide

/-- C6 counterexample: from the state in which field f already records
message m (count 1), two further identical `ValidationError(f, m)` dispatches
leave `validationErrorCount` at 1 — the increment over the two applications
is 0, not the 1 the claim asserts for every message string. -/
theorem validationError_repeat_increments_by_zero :
    ((runEvents (createInitialAnalyticsState ["f"] [] "sess" 0)
        [(AnalyticsAction.validationError "f" "m", 1)] "fresh").map
      (fun s => s.validationErrorCount)) = some 1
    ∧ ((runEvents (createInitialAnalyticsState ["f"] [] "sess" 0)
        [(AnalyticsAction.validationError "f" "m", 1),
         (AnalyticsAction.validationError "f" "m", 2),
         (AnalyticsAction.validationError "f" "m", 3)] "fresh").map
      (fun s => s.validationErrorCount)) = some 1 := by decide

/-- C7 counterexample: the freshly created initial Session Record has zero
Tab Records with a non-null `lastVisitTime`, not exactly one — every tab is
created inactive and no activation happens inside
`createInitialAnalyticsState`. -/
theorem initial_state_has_no_active_tab :
    countActiveTabs (createInitialAnalyticsState ["f"] ["a", "b"] "sess" 0).tabs = 0
    ∧ ¬ countActiveTabs (createInitialAnalyticsState ["f"] ["a", "b"] "sess" 0).tabs = 1 := by
  decide

/-- C1 counterexample: two terminal triggers for the same session each
deliver an export. After the idle timer expires (successful idle export) the
`formAlreadySubmitted` ref is still false, so a subsequent page-unload beacon
delivers a second record: `exportsDelivered = 2`, refuting at-most-one
delivery per session. -/
theorem idle_then_unload_exports_twice :
    (runSignals (initialController [] ["default"] "sess" 0)
        [(ControllerSignal.idleExpire, 600000), (ControllerSignal.unloadSignal, 600001)]
        "fresh").exportsDelivered = 2
    ∧ ¬ (runSignals (initialController [] ["default"] "sess" 0)
        [(ControllerSignal.idleExpire, 600000), (ControllerSignal.unloadSignal, 600001)]
        "fresh").exportsDelivered ≤ 1 := by decide

/-- C2 (amended): the reducer returns a state for every event except a
ValidationError whose field is not a key of `fields`: whenever every
ValidationError event carried by the action names a known field, the reducer
succeeds (and it never fails on any other event). -/
theorem reducer_total_on_known_fields :
    ∀ (s : FormAnalytics) (a : AnalyticsAction) (now : Int) (freshId : String),
      (∀ f m, a = AnalyticsAction.validationError f m → hasKey s.fields f) →
      (analyticsReducer s a now freshId).isSome = true := by
  intro s a now freshId h
  cases a with
  | validationError f m =>
    have hk := h f m rfl
    have hsome := lookupMap_isSome_of_hasKey hk
    cases hl : lookupMap s.fields f with
    | none => rw [hl] at hsome; simp at hsome
    | some fa => simp [analyticsReducer, hl]
  | tabChange t => rfl
  | formSubmit => rfl
  | formAbandon => rfl
  | resetAnalytics => rfl
  | finalizeTabTimes => rfl
  | setExportReason r => rfl

/-- Witness for C2 (amended) at a concrete state and event. -/
theorem reducer_total_on_known_fields_witness :
    (analyticsReducer (createInitialAnalyticsState ["email"] [] "sess" 0)
      (AnalyticsAction.validationError "email" "bad") 5 "fresh").isSome = true :=
  reducer_total_on_known_fields (createInitialAnalyticsState ["email"] [] "sess" 0)
    (AnalyticsAction.validationError "email" "bad") 5 "fresh"
    (fun f m h => by cases h; decide)

/-- C4 (amended): every reducer transition preserves mutual exclusion of
`formSubmitted` and `formAbandoned`, provided a FORM_ABANDON is only applied
to a state that is not already submitted; FORM_ABANDON applied to a submitted
state is the single violating case. -/
theorem flags_exclusive_preserved :
    ∀ (s : FormAnalytics) (a : AnalyticsAction) (now : Int) (freshId : String)
      (s1 : FormAnalytics), flagsExclusive s →
      (a = AnalyticsAction.formAbandon → s.formSubmitted = false) →
      analyticsReducer s a now freshId = some s1 → flagsExclusive s1 := by
  intro s a now freshId s1 hex habn hred
  cases a with
  | validationError f m =>
    cases hl : lookupMap s.fields f with
    | none => simp [analyticsReducer, hl] at hred
    | some fa =>
      simp only [analyticsReducer, hl, Option.some.injEq] at hred
      rw [← hred]
      exact hex
  | tabChange t =>
    simp only [analyticsReducer, Option.some.injEq] at hred
    rw [← hred]
    exact hex
  | finalizeTabTimes =>
    simp only [analyticsReducer, Option.some.injEq] at hred
    rw [← hred]
    exact hex
  | setExportReason r =>
    simp only [analyticsReducer, Option.some.injEq] at hred
    rw [← hred]
    exact hex
  | formSubmit =>
    simp only [analyticsReducer, Option.some.injEq] at hred
    rw [← hred]
    unfold flagsExclusive
    simp
  | formAbandon =>
    simp only [analyticsReducer, Option.some.injEq] at hred
    rw [← hred]
    unfold flagsExclusive
    simp [habn rfl]
  | resetAnalytics =>
    simp only [analyticsReducer, Option.some.injEq] at hred
    rw [← hred]
    unfold flagsExclusive
    simp [createInitialAnalyticsState]

/-- Witness for C4 (amended): Abandon applied to a non-submitted sample
session keeps the flags mutually exclusive. -/
theorem flags_exclusive_preserved_witness :
    flagsExclusive sampleAbandonedState :=
  flags_exclusive_preserved sampleState AnalyticsAction.formAbandon 10 "fresh"
    sampleAbandonedState (by decide) (fun _ => rfl) (by decide)

/-- C1 (amended): the only suppression the provider implements is of the
unload beacon after a completed submit export. A submit-reason export sets
`formAlreadySubmitted` (after the delivery, and delivers unconditionally); an
idle-reason export delivers unconditionally and leaves the ref unchanged; the
unload handler skips its beacon exactly when the ref is set; and the
analytics-change effect clears the ref whenever the session id is non-empty. -/
theorem export_guard_only_for_unload_after_submit :
    ∀ (cs : ControllerState) (now : Int) (freshId : String),
      (controllerStep cs ControllerSignal.submitCall now freshId).formAlreadySubmitted = true
      ∧ (controllerStep cs ControllerSignal.submitCall now freshId).exportsDelivered
          = cs.exportsDelivered + 1
      ∧ (controllerStep cs ControllerSignal.idleExpire now freshId).formAlreadySubmitted
          = cs.formAlreadySubmitted
      ∧ (controllerStep cs ControllerSignal.idleExpire now freshId).exportsDelivered
          = cs.exportsDelivered + 1
      ∧ (cs.formAlreadySubmitted = true →
          controllerStep cs ControllerSignal.unloadSignal now freshId = cs)
      ∧ (cs.formAlreadySubmitted = false →
          (controllerStep cs ControllerSignal.unloadSignal now freshId).exportsDelivered
            = cs.exportsDelivered + 1)
      ∧ (¬ cs.analytics.sessionId = "" →
          (controllerStep cs ControllerSignal.analyticsEffect now freshId).formAlreadySubmitted
            = false) := by
  intro cs now freshId
  refine ⟨rfl, rfl, rfl, rfl, ?_, ?_, ?_⟩
  · intro h
    simp [controllerStep, h]
  · intro h
    simp [controllerStep, h]
  · intro h
    simp [controllerStep, h]

/-- Witness for C1 (amended) at a controller state with the ref set and a
non-empty session id. -/
theorem export_guard_only_for_unload_after_submit_witness :
    controllerStep ⟨createInitialAnalyticsState [] [] "sess" 0, true, 1⟩
        ControllerSignal.unloadSignal 5 "fresh"
      = ⟨createInitialAnalyticsState [] [] "sess" 0, true, 1⟩
    ∧ (controllerStep ⟨createInitialAnalyticsState [] [] "sess" 0, true, 1⟩
        ControllerSignal.analyticsEffect 5 "fresh").formAlreadySubmitted = false :=
  ⟨(export_guard_only_for_unload_after_submit
      ⟨createInitialAnalyticsState [] [] "sess" 0, true, 1⟩ 5 "fresh").2.2.2.2.1 rfl,
   (export_guard_only_for_unload_after_submit
      ⟨createInitialAnalyticsState [] [] "sess" 0, true, 1⟩ 5 "fresh").2.2.2.2.2.2 (by decide)⟩

/-- C3 (amended): re-selecting the already-active section increments its
`visits` and re-stamps `lastVisitTime`/`lastVisitedAt` with the event time,
but leaves `totalTimeSpent` unchanged — the in-flight interval is discarded,
not folded. -/
theorem tabChange_reselect_bumps_without_fold :
    ∀ (s : FormAnalytics) (tb : String) (tbv : TabAnalytics) (now : Int) (freshId : String),
      lookupMap s.tabs tb = some tbv → tbv.lastVisitTime.isSome = true →
      analyticsReducer s (AnalyticsAction.tabChange tb) now freshId
        = some { s with tabs := tabChangeStep s.tabs tb now }
      ∧ lookupMap (tabChangeStep s.tabs tb now) tb
        = some ⟨tbv.visits + 1, tbv.totalTimeSpent, some now, some now⟩ := by
  intro s tb tbv now freshId hl _
  exact ⟨rfl, lookupMap_tabChangeStep_self hl⟩

/-- Witness for C3 (amended) at the sample state whose tab personal is active. -/
theorem tabChange_reselect_bumps_without_fold_witness :
    analyticsReducer sampleState (AnalyticsAction.tabChange "personal") 100 "fresh"
      = some { sampleState with tabs := tabChangeStep sampleState.tabs "personal" 100 }
    ∧ lookupMap (tabChangeStep sampleState.tabs "personal" 100) "personal"
      = some ⟨(1 : Nat) + 1, (0 : Int), some 100, some 100⟩ :=
  tabChange_reselect_bumps_without_fold sampleState "personal"
    ⟨1, 0, some 0, some 0⟩ 100 "fresh" (by decide) (by decide)

/-- C10: terminal states are not absorbing. From any state with
`formSubmitted` or `formAbandoned` set, a ValidationError for a known field
with an unrecorded message still appends the message and increments
`validationErrorCount`, and a TabChange still increments the target's
`visits` and re-activates it. -/
theorem terminal_flags_do_not_absorb :
    ∀ (s : FormAnalytics) (now : Int) (freshId : String),
      (s.formSubmitted = true ∨ s.formAbandoned = true) →
      (∀ f m fa, lookupMap s.fields f = some fa → ¬ m ∈ fa.validationErrors →
        analyticsReducer s (AnalyticsAction.validationError f m) now freshId
          = some { s with
              fields := updMap s.fields f
                { fa with validationErrors := fa.validationErrors ++ [m] }
              validationErrorCount := s.validationErrorCount + 1 })
      ∧ (∀ t tbv, lookupMap s.tabs t = some tbv →
          analyticsReducer s (AnalyticsAction.tabChange t) now freshId
            = some { s with tabs := tabChangeStep s.tabs t now }
          ∧ lookupMap (tabChangeStep s.tabs t now) t
            = some ⟨tbv.visits + 1, tbv.totalTimeSpent, some now, some now⟩) := by
  intro s now freshId hterm
  constructor
  · intro f m fa hl hm
    simp only [analyticsReducer, hl, if_neg hm]
  · intro t tbv hl
    exact ⟨rfl, lookupMap_tabChangeStep_self hl⟩

/-- Witness for C10 at a submitted sample state. -/
theorem terminal_flags_do_not_absorb_witness :
    analyticsReducer sampleSubmittedState
        (AnalyticsAction.validationError "email" "Too long") 5 "fresh"
      = some { sampleSubmittedState with
          fields := updMap sampleSubmittedState.fields "email"
            { id := "email", validationErrors := ["Required"] ++ ["Too long"] }
          validationErrorCount := sampleSubmittedState.validationErrorCount + 1 }
    ∧ analyticsReducer sampleSubmittedState (AnalyticsAction.tabChange "personal") 5 "fresh"
      = some { sampleSubmittedState with
          tabs := tabChangeStep sampleSubmittedState.tabs "personal" 5 } :=
  ⟨(terminal_flags_do_not_absorb sampleSubmittedState 5 "fresh" (Or.inl rfl)).1
      "email" "Too long" ⟨"email", ["Required"]⟩ (by decide) (by decide),
   ((terminal_flags_do_not_absorb sampleSubmittedState 5 "fresh" (Or.inl rfl)).2
      "personal" ⟨1, 0, some 0, some 0⟩ (by decide)).1⟩

/-- C6 (amended): for a field present in `fields`, dispatching
ValidationError(f, m) twice in succession yields the same state as
dispatching it once (the second application is the identity), and over the
two applications `validationErrorCount` increases by exactly 1 when `m` was
not already recorded for the field, and by 0 when it was. -/
theorem validationError_idempotent_and_dedup :
    ∀ (s : FormAnalytics) (f m : String) (fa : FieldAnalytics) (n1 n2 : Int)
      (freshId : String),
      keysNodup s.fields → lookupMap s.fields f = some fa →
      ∃ s1, analyticsReducer s (AnalyticsAction.validationError f m) n1 freshId = some s1
        ∧ analyticsReducer s1 (AnalyticsAction.validationError f m) n2 freshId = some s1
        ∧ s1.validationErrorCount
            = s.validationErrorCount + (if m ∈ fa.validationErrors then 0 else 1) := by
  intro s f m fa n1 n2 freshId hn hl
  by_cases hm : m ∈ fa.validationErrors
  · have hupd : updMap s.fields f fa = s.fields := updMap_of_lookupMap_self hn hl
    have happ : ∀ t : Int,
        analyticsReducer s (AnalyticsAction.validationError f m) t freshId = some s := by
      intro t
      simp only [analyticsReducer, hl, if_pos hm]
      rw [show ({ fa with validationErrors := fa.validationErrors } : FieldAnalytics) = fa
        from rfl, hupd]
    exact ⟨s, happ n1, happ n2, by simp [hm]⟩
  · refine ⟨{ s with
        fields := updMap s.fields f { fa with validationErrors := fa.validationErrors ++ [m] }
        validationErrorCount := s.validationErrorCount + 1 }, ?_, ?_, ?_⟩
    · simp only [analyticsReducer, hl, if_neg hm]
    · have hl1 : lookupMap
          (updMap s.fields f { fa with validationErrors := fa.validationErrors ++ [m] }) f
          = some { fa with validationErrors := fa.validationErrors ++ [m] } :=
        lookupMap_updMap_self s.fields f _
      have hn1 : keysNodup
          (updMap s.fields f { fa with validationErrors := fa.validationErrors ++ [m] }) :=
        keysNodup_updMap _ hn
      have hm1 : m ∈ ({ fa with validationErrors := fa.validationErrors ++ [m] }
          : FieldAnalytics).validationErrors := by
        simp
      have hupd2 := updMap_of_lookupMap_self hn1 hl1
      simp only [analyticsReducer, hl1, if_pos hm1]
      rw [show ({ fa with validationErrors := fa.validationErrors ++ [m] } : FieldAnalytics)
          = { id := fa.id, validationErrors := fa.validationErrors ++ [m] } from rfl] at hupd2
      rw [show ({ id := fa.id, validationErrors :=
          (({ fa with validationErrors := fa.validationErrors ++ [m] } : FieldAnalytics)
            ).validationErrors } : FieldAnalytics)
          = { id := fa.id, validationErrors := fa.validationErrors ++ [m] } from rfl]
      rw [hupd2]
    · simp [hm]

/-- Witness for C6 (amended) at the sample state, whose field email already
records the message. -/
theorem validationError_idempotent_and_dedup_witness :
    ∃ s1, analyticsReducer sampleState
        (AnalyticsAction.validationError "email" "Required") 1 "fresh" = some s1
      ∧ analyticsReducer s1 (AnalyticsAction.validationError "email" "Required") 2 "fresh"
          = some s1
      ∧ s1.validationErrorCount = sampleState.validationErrorCount
          + (if "Required" ∈ (FieldAnalytics.mk "email" ["Required"]).validationErrors
             then 0 else 1) :=
  validationError_idempotent_and_dedup sampleState "email" "Required"
    (FieldAnalytics.mk "email" ["Required"]) 1 2 "fresh" (by decide) (by decide)

/-- C7 (amended): the freshly created Session Record has zero active Tab
Records; any TAB_CHANGE (from a well-formed state) leaves exactly one active
Tab Record, namely the target; and FINALIZE_TAB_TIMES, FORM_SUBMIT and
FORM_ABANDON leave zero active Tab Records. -/
theorem active_tab_count_evolution :
    (∀ (ff ti : List String) (sid : String) (t : Int),
        countActiveTabs (createInitialAnalyticsState ff ti sid t).tabs = 0)
    ∧ (∀ (s : FormAnalytics) (tb : String) (now : Int) (freshId : String) (s1 : FormAnalytics),
        keysNodup s.tabs →
        analyticsReducer s (AnalyticsAction.tabChange tb) now freshId = some s1 →
        countActiveTabs s1.tabs = 1)
    ∧ (∀ (s : FormAnalytics) (a : AnalyticsAction) (now : Int) (freshId : String)
        (s1 : FormAnalytics),
        (a = AnalyticsAction.finalizeTabTimes ∨ a = AnalyticsAction.formSubmit
          ∨ a = AnalyticsAction.formAbandon) →
        analyticsReducer s a now freshId = some s1 →
        countActiveTabs s1.tabs = 0) := by
  refine ⟨?_, ?_, ?_⟩
  · intro ff ti sid t
    apply countActiveTabs_eq_zero
    intro p hp
    rcases mem_foldl_updMap ti [] p hp with h | ⟨x, hx⟩
    · simp at h
    · rw [hx]
      rfl
  · intro s tb now freshId s1 hn hred
    simp only [analyticsReducer, Option.some.injEq] at hred
    rw [← hred]
    exact countActiveTabs_tabChangeStep hn
  · intro s a now freshId s1 ha hred
    rcases ha with h | h | h <;> subst h <;>
      simp only [analyticsReducer, Option.some.injEq] at hred <;> rw [← hred] <;>
      exact countActiveTabs_finalizeAllTabs now s.tabs

/-- Witness for C7 (amended) at concrete states: a fresh two-tab session, a
TAB_CHANGE result, and a FINALIZE_TAB_TIMES result. -/
theorem active_tab_count_evolution_witness :
    countActiveTabs (createInitialAnalyticsState ["f"] ["a", "b"] "sid" 0).tabs = 0
    ∧ countActiveTabs ({ sampleState with
        tabs := tabChangeStep sampleState.tabs "personal" 7 } : FormAnalytics).tabs = 1
    ∧ countActiveTabs ({ sampleState with
        tabs := finalizeAllTabs 9 sampleState.tabs } : FormAnalytics).tabs = 0 :=
  ⟨active_tab_count_evolution.1 ["f"] ["a", "b"] "sid" 0,
   active_tab_count_evolution.2.1 sampleState "personal" 7 "fresh"
     { sampleState with tabs := tabChangeStep sampleState.tabs "personal" 7 }
     (by decide) rfl,
   active_tab_count_evolution.2.2 sampleState AnalyticsAction.finalizeTabTimes 9 "fresh"
     { sampleState with tabs := finalizeAllTabs 9 sampleState.tabs }
     (Or.inl rfl) rfl⟩

/-- C9: Reset produces exactly the Session Record freshly created, at the
reducer's clock reading, from the prior state's field-identifier list and
tab-identifier list: the new record carries the fresh session id and start
time, key-for-key fresh (empty-error) Field Records and zeroed Tab Records,
a zero error counter, cleared terminal flags and no end markers. -/
theorem reset_equals_fresh_creation :
    ∀ (s : FormAnalytics) (now : Int) (freshId : String),
      keysNodup s.fields → keysNodup s.tabs →
      analyticsReducer s AnalyticsAction.resetAnalytics now freshId
        = some (createInitialAnalyticsState (s.fields.map Prod.fst) (s.tabs.map Prod.fst)
            freshId now)
      ∧ (createInitialAnalyticsState (s.fields.map Prod.fst) (s.tabs.map Prod.fst)
          freshId now).fields
          = (s.fields.map Prod.fst).map (fun f => (f, createInitialFieldAnalytics f))
      ∧ (createInitialAnalyticsState (s.fields.map Prod.fst) (s.tabs.map Prod.fst)
          freshId now).tabs
          = (s.tabs.map Prod.fst).map (fun t => (t, createInitialTabAnalytics))
      ∧ (createInitialAnalyticsState (s.fields.map Prod.fst) (s.tabs.map Prod.fst)
          freshId now).sessionId = freshId
      ∧ (createInitialAnalyticsState (s.fields.map Prod.fst) (s.tabs.map Prod.fst)
          freshId now).formStartTime = now
      ∧ (createInitialAnalyticsState (s.fields.map Prod.fst) (s.tabs.map Prod.fst)
          freshId now).validationErrorCount = 0
      ∧ (createInitialAnalyticsState (s.fields.map Prod.fst) (s.tabs.map Prod.fst)
          freshId now).formSubmitted = false
      ∧ (createInitialAnalyticsState (s.fields.map Prod.fst) (s.tabs.map Prod.fst)
          freshId now).formAbandoned = false
      ∧ (createInitialAnalyticsState (s.fields.map Prod.fst) (s.tabs.map Prod.fst)
          freshId now).formEndTime = none
      ∧ (createInitialAnalyticsState (s.fields.map Prod.fst) (s.tabs.map Prod.fst)
          freshId now).formCompletionTime = none
      ∧ (createInitialAnalyticsState (s.fields.map Prod.fst) (s.tabs.map Prod.fst)
          freshId now).exportReason = none := by
  intro s now freshId hnf hnt
  refine ⟨rfl, ?_, ?_, rfl, rfl, rfl, rfl, rfl, rfl, rfl, rfl⟩
  · show (s.fields.map Prod.fst).foldl
        (fun m f => updMap m f (createInitialFieldAnalytics f)) []
      = (s.fields.map Prod.fst).map (fun f => (f, createInitialFieldAnalytics f))
    rw [foldl_updMap_fresh (s.fields.map Prod.fst) [] hnf ?_]
    · simp
    · intro x _ hc
      simp [hasKey] at hc
  · show (s.tabs.map Prod.fst).foldl
        (fun t m => updMap t m createInitialTabAnalytics) []
      = (s.tabs.map Prod.fst).map (fun t => (t, createInitialTabAnalytics))
    rw [foldl_updMap_fresh (s.tabs.map Prod.fst) [] hnt ?_]
    · simp
    · intro x _ hc
      simp [hasKey] at hc

/-- Witness for C9 at the sample state. -/
theorem reset_equals_fresh_creation_witness :
    analyticsReducer sampleState AnalyticsAction.resetAnalytics 50 "next"
      = some (createInitialAnalyticsState (sampleState.fields.map Prod.fst)
          (sampleState.tabs.map Prod.fst) "next" 50)
    ∧ (createInitialAnalyticsState (sampleState.fields.map Prod.fst)
        (sampleState.tabs.map Prod.fst) "next" 50).fields
        = (sampleState.fields.map Prod.fst).map (fun f => (f, createInitialFieldAnalytics f)) :=
  ⟨(reset_equals_fresh_creation sampleState 50 "next" (by decide) (by decide)).1,
   (reset_equals_fresh_creation sampleState 50 "next" (by decide) (by decide)).2.1⟩

/-- C5 invariant base case, shared with the RESET case of the preservation
proof: a freshly created Session Record satisfies the error-count invariant. -/
theorem errorCountInvariant_initial (ff ti : List String) (sid : String) (t : Int) :
    errorCountInvariant (createInitialAnalyticsState ff ti sid t) := by
  refine ⟨?_, ?_, ?_⟩
  · exact keysNodup_foldl_updMap ff [] (by simp [keysNodup])
  · intro p hp
    rcases mem_foldl_updMap ff [] p hp with h | ⟨x, hx⟩
    · simp at h
    · rw [hx]
      exact List.nodup_nil
  · show (0 : Nat) = errSum (createInitialAnalyticsState ff ti sid t).fields
    symm
    unfold errSum
    apply List.sum_eq_zero
    intro x hx
    rcases List.mem_map.mp hx with ⟨p, hp, hpe⟩
    rcases mem_foldl_updMap ff [] p hp with h | ⟨y, hy⟩
    · simp at h
    · rw [← hpe, hy]
      rfl

/-- C5: the invariant that `validationErrorCount` equals the sum over fields
of the number of distinct recorded messages (lists are duplicate-free, so the
list length is that number) holds in the initial Session Record and is
preserved by every successful reducer transition; FORM_SUBMIT re-derives the
counter from the field contents. -/
theorem errorCount_invariant_initial_and_preserved :
    (∀ (ff ti : List String) (sid : String) (t : Int),
        errorCountInvariant (createInitialAnalyticsState ff ti sid t))
    ∧ (∀ (s : FormAnalytics) (a : AnalyticsAction) (now : Int) (freshId : String)
        (s1 : FormAnalytics), errorCountInvariant s →
        analyticsReducer s a now freshId = some s1 → errorCountInvariant s1) := by
  constructor
  · exact errorCountInvariant_initial
  · intro s a now freshId s1 hinv hred
    obtain ⟨hk, hnd, hcnt⟩ := hinv
    cases a with
    | validationError f m =>
      cases hl : lookupMap s.fields f with
      | none => simp [analyticsReducer, hl] at hred
      | some fa =>
        have hfaNodup : fa.validationErrors.Nodup := hnd (f, fa) (mem_of_lookupMap_some hl)
        rcases exists_decomp_of_lookup hk hl with ⟨l1, l2, hmd, hua⟩
        by_cases hm : m ∈ fa.validationErrors
        · have hupd : updMap s.fields f fa = s.fields := updMap_of_lookupMap_self hk hl
          simp only [analyticsReducer, hl, if_pos hm, Option.some.injEq] at hred
          rw [show ({ fa with validationErrors := fa.validationErrors } : FieldAnalytics) = fa
            from rfl, hupd] at hred
          rw [← hred]
          exact ⟨hk, hnd, hcnt⟩
        · simp only [analyticsReducer, hl, if_neg hm, Option.some.injEq] at hred
          rw [← hred]
          refine ⟨keysNodup_updMap _ hk, ?_, ?_⟩
          · intro p hp
            rcases mem_updMap hp with hpe | hpm
            · rw [hpe]
              show (fa.validationErrors ++ [m]).Nodup
              rw [List.nodup_append]
              refine ⟨hfaNodup, List.nodup_singleton m, ?_⟩
              intro x hx hxm
              simp only [List.mem_singleton] at hxm
              subst hxm
              exact hm hx
            · exact hnd p hpm
          · show s.validationErrorCount + 1
              = errSum (updMap s.fields f
                  { fa with validationErrors := fa.validationErrors ++ [m] })
            rw [hua]
            rw [hmd] at hcnt
            rw [errSum_append, errSum_cons] at hcnt
            rw [errSum_append, errSum_cons]
            show s.validationErrorCount + 1
              = errSum l1 + ((fa.validationErrors ++ [m]).length + errSum l2)
            rw [List.length_append]
            simp only [List.length_cons, List.length_nil] at *
            omega
    | tabChange t =>
      simp only [analyticsReducer, Option.some.injEq] at hred
      rw [← hred]
      exact ⟨hk, hnd, hcnt⟩
    | finalizeTabTimes =>
      simp only [analyticsReducer, Option.some.injEq] at hred
      rw [← hred]
      exact ⟨hk, hnd, hcnt⟩
    | setExportReason r =>
      simp only [analyticsReducer, Option.some.injEq] at hred
      rw [← hred]
      exact ⟨hk, hnd, hcnt⟩
    | formAbandon =>
      simp only [analyticsReducer, Option.some.injEq] at hred
      rw [← hred]
      exact ⟨hk, hnd, hcnt⟩
    | formSubmit =>
      simp only [analyticsReducer, Option.some.injEq] at hred
      rw [← hred]
      exact ⟨hk, hnd, rfl⟩
    | resetAnalytics =>
      simp only [analyticsReducer, Option.some.injEq] at hred
      rw [← hred]
      exact errorCountInvariant_initial _ _ _ _

/-- Witness for C5 at a concrete fresh state and a concrete transition. -/
theorem errorCount_invariant_witness :
    errorCountInvariant (createInitialAnalyticsState ["f"] ["a"] "sid" 0)
    ∧ errorCountInvariant sampleState :=
  ⟨errorCount_invariant_initial_and_preserved.1 ["f"] ["a"] "sid" 0,
   errorCount_invariant_initial_and_preserved.2 sampleState
     (AnalyticsAction.setExportReason none) 5 "fresh" sampleState (by decide) rfl⟩

end FormAnalyticsSpec
